import Mathlib

/-!
Verification development for the firestore-advanced-mcp repository
(src/index.js).  The two core components are embedded shallowly:

* `convertTimestampsToISO` — the recursive native→plain value normalizer,
  modelled over an explicit heap so that JavaScript object identity (the
  `WeakMap` visited set) is captured faithfully;
* `documentCache` — the bounded TTL document cache (a JS `Map` with
  insertion-order iteration), modelled as explicit state passing with the
  current time `Date.now()` as an explicit parameter;
* `convertValueToFirestoreType` — the plain→native reverse converter,
  parameterized over the JavaScript built-ins it calls (`JSON.parse`,
  `Number`, `String`).
-/

/-! ## JavaScript value model for the normalizer

A JavaScript value is either a primitive or a pointer into a heap of
objects; the heap captures identity, which the source's `WeakMap`-based
cycle detection depends on.  Heaps may be cyclic. -/

/-- A JavaScript value: a primitive, or a reference (pointer) to a heap
object.  Numbers are modelled as rationals. -/
inductive JVal where
  | vNull
  | vUndefined
  | vBool (b : Bool)
  | vNum (q : ℚ)
  | vStr (s : String)
  | vRef (a : Nat)
deriving DecidableEq, Repr


/-- A heap object: one of the native Firestore classes the source
dispatches on with `instanceof`, or a plain array / plain object.
`timestamp iso` records what `toDate().toISOString()` returns for that
native Timestamp; `docRef segs` records the slash-separated path segments
of a native DocumentReference (the library accessors `.path`, `.id` and
`.parent.id` are derived from the segments). -/
inductive HObj where
  | timestamp (iso : String)
  | geopoint (lat lng : ℚ)
  | docRef (segs : List String)
  | arr (elems : List JVal)
  | obj (fields : List (String × JVal))

/-- The heap: object addresses are indices into the list. -/
abbrev Heap := List HObj

/-- Output of the normalizer: a plain (identity-free) JSON-like tree.
`pRaw a` records the case where the source returns the input object itself
unconverted (the `_isDocumentReference` early return). -/
inductive PVal where
  | pNull
  | pUndefined
  | pBool (b : Bool)
  | pNum (q : ℚ)
  | pStr (s : String)
  | pArr (elems : List PVal)
  | pObj (fields : List (String × PVal))
  | pRaw (a : Nat)

/-- The literal string the source returns for a revisited object
(src/index.js line 143). -/
def circularMarker : String := "[Référence circulaire]"

/-- JavaScript truthiness of a value (objects are always truthy). -/
def jvTruthy : JVal → Bool
  | .vNull => false
  | .vUndefined => false
  | .vBool b => b
  | .vNum q => decide (q ≠ 0)
  | .vStr s => decide (s ≠ "")
  | .vRef _ => true

/-- Property lookup on a JS object's own fields (`data[key]`), as an
option. -/
def fieldLookup (fields : List (String × JVal)) (k : String) : Option JVal :=
  (fields.find? (fun kv => kv.1 = k)).map (·.2)

/-- The source's check `data._isDocumentReference` (truthy test; a missing
property reads as `undefined`, which is falsy). -/
def isDocRefTagged (fields : List (String × JVal)) : Bool :=
  match fieldLookup fields "_isDocumentReference" with
  | some v => jvTruthy v
  | none => false

/-- JS `String.prototype.split` with a single-character separator,
modelled over the character list (structural, so it computes in the
kernel): `"a/b".split('/') = ["a","b"]`, `"".split('/') = [""]`. -/
def jsSplit (s : String) (sep : Char) : List String :=
  (s.data.splitOn sep).map (fun cs => ⟨cs⟩)

/-- JS `String.prototype.includes` with a single-character argument. -/
def jsIncludes (s : String) (c : Char) : Bool :=
  s.data.contains c

/-- The source's path heuristic on a plain object (src/index.js lines
175-179): `data.path && typeof data.path === 'string' &&
data.path.includes('/')`, followed by `pathParts.length >= 2` after
splitting on `/`.  Returns the path string when every test passes. -/
def pathHeuristic (fields : List (String × JVal)) : Option String :=
  match fieldLookup fields "path" with
  | some (.vStr p) =>
      if p ≠ "" ∧ jsIncludes p '/' ∧ (jsSplit p '/').length ≥ 2 then some p
      else none
  | _ => none

/-- The reference tag object the source builds (src/index.js lines
160-167 and 183-189): note the field is named `collection` — not
`collectionId` — and a `_isDocumentReference: true` marker is included. -/
def referenceTag (path id coll : String) : PVal :=
  .pObj [("type", .pStr "reference"), ("path", .pStr path),
         ("id", .pStr id), ("collection", .pStr coll),
         ("_isDocumentReference", .pBool true)]

/-- Element-wise conversion for arrays (`data.map(item => ...)` with the
shared visited map threaded left to right); `step` is the conversion of a
single element. -/
def convSeq (step : JVal → List Nat → Option (PVal × List Nat)) :
    List JVal → List Nat → Option (List PVal × List Nat)
  | [], visited => some ([], visited)
  | e :: rest, visited =>
    match step e visited with
    | none => none
    | some (pv, vis') =>
      match convSeq step rest vis' with
      | none => none
      | some (l, vis'') => some (pv :: l, vis'')

/-- Field-wise conversion for plain objects (the `for (const key in data)`
loop, preserving key order, with the shared visited map threaded). -/
def convFieldsSeq (step : JVal → List Nat → Option (PVal × List Nat)) :
    List (String × JVal) → List Nat → Option (List (String × PVal) × List Nat)
  | [], visited => some ([], visited)
  | (k, v) :: rest, visited =>
    match step v visited with
    | none => none
    | some (pv, vis') =>
      match convFieldsSeq step rest vis' with
      | none => none
      | some (l, vis'') => some ((k, pv) :: l, vis'')

/-- Fuel-based embedding of `convertTimestampsToISO(data, visitedObjects,
depth, maxDepth)` (src/index.js lines 134-210).  The result pairs the
produced plain value with the updated visited set (the source mutates one
shared `WeakMap`); `none` means the fuel ran out (the top-level wrapper
supplies provably sufficient fuel).  Branches, in source order: primitive
passthrough; visited check returning `circularMarker`; marking visited;
Timestamp → ISO string; GeoPoint → `{latitude, longitude}`;
DocumentReference → reference tag; `_isDocumentReference` early return of
the object itself; path heuristic → reference tag; array → element-wise
recursion; object → field-wise recursion.  The `depth`/`maxDepth`
parameters are threaded exactly as in the source — which never compares
them. -/
def convGo (h : Heap) : Nat → JVal → List Nat → Nat → Nat →
    Option (PVal × List Nat)
  | 0, _, _, _, _ => none
  | fuel' + 1, data, visited, depth, maxDepth =>
    match data with
    | .vNull => some (.pNull, visited)
    | .vUndefined => some (.pUndefined, visited)
    | .vBool b => some (.pBool b, visited)
    | .vNum q => some (.pNum q, visited)
    | .vStr s => some (.pStr s, visited)
    | .vRef a =>
      if a ∈ visited then some (.pStr circularMarker, visited)
      else
        let vis := a :: visited
        match h[a]? with
        | none => some (.pUndefined, vis)
        | some (.timestamp iso) => some (.pStr iso, vis)
        | some (.geopoint lat lng) =>
            some (.pObj [("latitude", .pNum lat), ("longitude", .pNum lng)], vis)
        | some (.docRef segs) =>
            some (referenceTag (String.intercalate "/" segs) (segs.getLastD "")
              (segs.dropLast.getLastD ""), vis)
        | some (.arr elems) =>
            match convSeq (fun e v => convGo h fuel' e v (depth + 1) maxDepth)
                elems vis with
            | none => none
            | some (l, vis') => some (.pArr l, vis')
        | some (.obj fields) =>
            if isDocRefTagged fields then some (.pRaw a, vis)
            else
              match pathHeuristic fields with
              | some p =>
                  some (referenceTag p ((jsSplit p '/').getLastD "")
                    ((jsSplit p '/').getD ((jsSplit p '/').length - 2) ""), vis)
              | none =>
                  match convFieldsSeq
                      (fun e v => convGo h fuel' e v (depth + 1) maxDepth)
                      fields vis with
                  | none => none
                  | some (l, vis') => some (.pObj l, vis')

/-- Top-level entry point, matching the call `convertTimestampsToISO(data)`
with the default arguments `visitedObjects = new WeakMap()`, `depth = 0`,
`maxDepth = 20`.  Fuel `h.length + 1` is sufficient (proved below): each
genuine descent into the heap marks a previously unvisited address. -/
def convertTimestampsToISO (h : Heap) (data : JVal) : Option PVal :=
  (convGo h (h.length + 1) data [] 0 20).map Prod.fst

/-! ## Document cache (src/index.js lines 27-94)

The JS `Map` is modelled as an insertion-ordered association list with
unique keys maintained by `mapSet` (JS `Map.set` updates an existing key
in place without changing its position; a new key is appended).
`Date.now()` is an explicit `now : Int` argument. -/

/-- One cache entry `{data, timestamp}` (src/index.js lines 63-66). -/
structure CacheEntry (α : Type) where
  data : α
  timestamp : Int
deriving Repr, DecidableEq

/-- JS `Map.prototype.has`. -/
def mapHas (m : List (String × β)) (k : String) : Bool :=
  m.any (fun kv => kv.1 = k)

/-- JS `Map.prototype.get`, as an option. -/
def mapGet (m : List (String × β)) (k : String) : Option β :=
  (m.find? (fun kv => kv.1 = k)).map (·.2)

/-- JS `Map.prototype.delete`. -/
def mapDelete (m : List (String × β)) (k : String) : List (String × β) :=
  m.filter (fun kv => ¬ kv.1 = k)

/-- JS `Map.prototype.set`: update in place if the key is present (keeping
its insertion-order position), otherwise append. -/
def mapSet (m : List (String × β)) (k : String) (v : β) : List (String × β) :=
  if mapHas m k then m.map (fun kv => if kv.1 = k then (k, v) else kv)
  else m ++ [(k, v)]

/-- The `documentCache` object's mutable state (src/index.js lines
27-32). -/
structure DocumentCache (α : Type) where
  cache : List (String × CacheEntry α)
  ttl : Int
  maxSize : Nat
  hitCount : Nat
  missCount : Nat
deriving Repr

/-- The initial `documentCache` singleton: empty map, `ttl: 60000`,
`maxSize: 500`, both counters zero (src/index.js lines 27-32). -/
def documentCacheInit (α : Type) : DocumentCache α :=
  ⟨[], 60000, 500, 0, 0⟩

/-- An empty cache with the given `ttl` and `maxSize` (the spec's test
vectors use `ttlMillis = 100` and `maxSize = 2`). -/
def emptyCache (α : Type) (ttl : Int) (maxSize : Nat) : DocumentCache α :=
  ⟨[], ttl, maxSize, 0, 0⟩

/-- Embedding of `documentCache.get(key)` (src/index.js lines 35-53): absent → miss;
present but `now - timestamp > this.ttl` → delete, miss; otherwise hit.
Returns the result together with the updated state. -/
def DocumentCache.get (s : DocumentCache α) (now : Int) (key : String) :
    Option α × DocumentCache α :=
  match mapGet s.cache key with
  | none => (none, { s with missCount := s.missCount + 1 })
  | some e =>
    if now - e.timestamp > s.ttl then
      (none, { s with cache := mapDelete s.cache key,
                      missCount := s.missCount + 1 })
    else
      (some e.data, { s with hitCount := s.hitCount + 1 })

/-- Embedding of `documentCache.set(key, data)` (src/index.js lines 56-67): if
`this.cache.size >= this.maxSize`, delete `this.cache.keys().next().value`
(the first key in Map insertion order; on an empty map that value is
`undefined` and the delete is a no-op), then insert `{data, timestamp:
Date.now()}`. -/
def DocumentCache.set (s : DocumentCache α) (now : Int) (key : String)
    (data : α) : DocumentCache α :=
  let s1 :=
    if s.cache.length ≥ s.maxSize then
      match s.cache with
      | [] => s
      | (k0, _) :: _ => { s with cache := mapDelete s.cache k0 }
    else s
  { s1 with cache := mapSet s1.cache key ⟨data, now⟩ }

/-- Embedding of `documentCache.invalidate(key)` (src/index.js lines 70-72). -/
def DocumentCache.invalidate (s : DocumentCache α) (key : String) :
    DocumentCache α :=
  { s with cache := mapDelete s.cache key }

/-- Embedding of `documentCache.clear()` (src/index.js lines 75-79). -/
def DocumentCache.clear (s : DocumentCache α) : DocumentCache α :=
  { s with cache := [], hitCount := 0, missCount := 0 }

/-- Two-decimal rendering of the hit ratio, modelling
`(hitCount / totalRequests).toFixed(2)` (src/index.js lines 83-91) by
exact rational rounding (ties away from zero, as `toFixed` specifies for
the nonnegative values that arise here; the two values the claims use,
3/4 and 0, are exactly representable, so double rounding is not an
issue). -/
def ratioFixed2 (hit miss : Nat) : String :=
  let t := hit + miss
  let n := if t = 0 then 0 else (200 * hit + t) / (2 * t)
  if n ≥ 100 then "1.00"
  else "0." ++ toString (n / 10) ++ toString (n % 10)

/-- A JS value as returned inside `getStats()`: the `hitRatio` field is a
string (the result of `toFixed`), every other field a number. -/
inductive StatVal where
  | num (q : ℚ)
  | str (s : String)
deriving DecidableEq, Repr

/-- The record returned by `documentCache.getStats()`. -/
structure CacheStats where
  size : Nat
  maxSize : Nat
  hitCount : Nat
  missCount : Nat
  hitRatio : StatVal
deriving Repr

/-- Embedding of `documentCache.getStats()` (src/index.js lines 82-93): `hitRatio` is
`(totalRequests > 0 ? hitCount / totalRequests : 0).toFixed(2)` — a
string, not a number. -/
def DocumentCache.getStats (s : DocumentCache α) : CacheStats :=
  ⟨s.cache.length, s.maxSize, s.hitCount, s.missCount,
   .str (ratioFixed2 s.hitCount s.missCount)⟩

/-- A single cache operation, for stating invariants over arbitrary
operation sequences. -/
inductive CacheOp (α : Type) where
  | opGet (now : Int) (key : String)
  | opSet (now : Int) (key : String) (data : α)
  | opInvalidate (key : String)
  | opClear

/-- Apply one operation to the cache state (the result of a `get` is
discarded; only the state matters for the invariant). -/
def applyOp (s : DocumentCache α) : CacheOp α → DocumentCache α
  | .opGet now key => (s.get now key).2
  | .opSet now key data => s.set now key data
  | .opInvalidate key => s.invalidate key
  | .opClear => s.clear

/-- Run a sequence of cache operations from a starting state. -/
def runOps (s : DocumentCache α) (ops : List (CacheOp α)) : DocumentCache α :=
  ops.foldl applyOp s

/-! ## Reverse conversion (src/index.js lines 423-542)

`convertValueToFirestoreType` never dereferences object identity, so its
input is modelled as a plain tree.  The JavaScript built-ins it calls
(`JSON.parse`, `Number`, `String`) are external primitives, passed in as a
parameter record. -/

/-- A plain JavaScript value as received by the reverse converter.
`date ms` models a JS `Date` object (epoch milliseconds). -/
inductive JsIn where
  | null
  | undefinedVal
  | bool (b : Bool)
  | num (q : ℚ)
  | str (s : String)
  | date (ms : Int)
  | arr (elems : List JsIn)
  | obj (fields : List (String × JsIn))

/-- JavaScript `typeof` (note the quirk `typeof null === "object"`;
dates, arrays and plain objects are all `"object"`). -/
def jsTypeof : JsIn → String
  | .null => "object"
  | .undefinedVal => "undefined"
  | .bool _ => "boolean"
  | .num _ => "number"
  | .str _ => "string"
  | .date _ => "object"
  | .arr _ => "object"
  | .obj _ => "object"

/-- JavaScript truthiness for the reverse converter's inputs. -/
def jsTruthy : JsIn → Bool
  | .null => false
  | .undefinedVal => false
  | .bool b => b
  | .num q => decide (q ≠ 0)
  | .str s => decide (s ≠ "")
  | .date _ => true
  | .arr _ => true
  | .obj _ => true

/-- Property read `value[k]` (a missing property reads as `undefined`;
only plain objects carry properties in this model). -/
def jsProp (v : JsIn) (k : String) : JsIn :=
  match v with
  | .obj fields => ((fields.find? (fun kv => kv.1 = k)).map (·.2)).getD .undefinedVal
  | _ => .undefinedVal

/-- The JS `in` operator (`'latitude' in value`). -/
def jsHasProp (v : JsIn) (k : String) : Bool :=
  match v with
  | .obj fields => fields.any (fun kv => kv.1 = k)
  | _ => false

/-- External JavaScript built-ins the converter calls.  `parseJSON s =
none` models `JSON.parse` throwing a `SyntaxError`; `numberOfString s =
none` models `Number(s)` being `NaN`; `stringOf` models `String(v)`. -/
structure JsPrims where
  parseJSON : String → Option JsIn
  numberOfString : String → Option ℚ
  stringOf : JsIn → String

/-- Result of the reverse conversion: either a plain JS value (including
the unchanged input on fallthrough) or a native Firestore value built by
one of the library constructors, recorded symbolically. -/
inductive FsValue where
  | plain (v : JsIn)
  | timestampOfString (s : String)
  | timestampOfDate (ms : Int)
  | timestampOfMillis (q : ℚ)
  | geoPoint (lat lng : JsIn)
  | docRef (pathArg : JsIn)

/-- Discriminator for `value === null`. -/
def isNullJs : JsIn → Bool
  | .null => true
  | _ => false

/-- Discriminator for `value === undefined`. -/
def isUndefJs : JsIn → Bool
  | .undefinedVal => true
  | _ => false

/-- Embedding of `looksLikeDocumentReference(value)` (src/index.js lines 423-431): a
string splitting on `/` into at least two parts. -/
def looksLikeDocumentReference (value : JsIn) : Bool :=
  match value with
  | .str s => decide ((jsSplit s '/').length ≥ 2)
  | _ => false

/-- Embedding of `convertValueToFirestoreType(value, type)` (src/index.js
lines 434-542).  Each `break` of the source's `switch` falls through to
the final `return value`, rendered here as `.plain value`. -/
def convertValueToFirestoreType (P : JsPrims) (value : JsIn) (type : String) :
    FsValue :=
  if isNullJs value || isUndefJs value then .plain .null
  else if type = "timestamp" then
    match value with
    | .str s => .timestampOfString s
    | .date ms => .timestampOfDate ms
    | .num q => .timestampOfMillis q
    | _ => .plain value
  else if type = "geopoint" then
    if jsTypeof value = "object" ∧ jsHasProp value "latitude"
        ∧ jsHasProp value "longitude" then
      .geoPoint (jsProp value "latitude") (jsProp value "longitude")
    else .plain value
  else if type = "reference" then
    match value with
    | .str _ => .docRef value
    | v =>
      if jsTruthy v ∧ jsTypeof v = "object" ∧ jsTruthy (jsProp v "path") then
        .docRef (jsProp v "path")
      else .plain value
  else if type = "array" then
    match value with
    | .arr l => .plain (.arr l)
    | .str s =>
      match P.parseJSON s with
      | some (.arr l) => .plain (.arr l)
      | some _ => .plain (.arr [value])
      | none => .plain (.arr [value])
    | _ => .plain (.arr [value])
  else if type = "map" ∨ type = "object" then
    if jsTypeof value = "object" ∧ isNullJs value = false then .plain value
    else
      match value with
      | .str s =>
        match P.parseJSON s with
        | some t => .plain t
        | none => .plain (.obj [("value", value)])
      | _ => .plain (.obj [("value", value)])
  else if type = "boolean" then
    match value with
    | .bool b => .plain (.bool b)
    | .str s =>
      if s.toLower = "true" then .plain (.bool true)
      else if s.toLower = "false" then .plain (.bool false)
      else .plain (.bool (jsTruthy value))
    | _ => .plain (.bool (jsTruthy value))
  else if type = "number" then
    match value with
    | .num q => .plain (.num q)
    | .str s =>
      match P.numberOfString s with
      | some q => .plain (.num q)
      | none => .plain value
    | _ => .plain value
  else if type = "string" then .plain (.str (P.stringOf value))
  else if type = "null" then .plain .null
  else
    match value with
    | .date ms => .timestampOfDate ms
    | v =>
      if jsTypeof v = "object" ∧ isNullJs v = false then
        if jsHasProp v "latitude" ∧ jsHasProp v "longitude" then
          .geoPoint (jsProp v "latitude") (jsProp v "longitude")
        else if jsTruthy (jsProp v "_isDocumentReference")
            ∨ (jsTruthy (jsProp v "path")
               ∧ jsTypeof (jsProp v "path") = "string") then
          .docRef (jsProp v "path")
        else .plain value
      else if jsTypeof v = "string" ∧ looksLikeDocumentReference v then
        .docRef value
      else .plain value

/-! ## Test fixtures and the termination measure -/

/-- A concrete session producing exactly 3 hits and 1 miss: one set, three
fresh gets of that key, one get of an absent key. -/
def threeHitsOneMiss : DocumentCache Nat :=
  runOps (emptyCache Nat 60000 500)
    [.opSet 0 "k" 42, .opGet 1 "k", .opGet 2 "k", .opGet 3 "k",
     .opGet 4 "absent"]

/-- A linearly nested, non-cyclic chain of `n` plain objects: object `i`
has a single field `a` holding the next object, the innermost holding the
string `"end"`. -/
def chainHeap (n : Nat) : Heap :=
  (List.range n).map
    (fun i => .obj [("a", if i + 1 < n then .vRef (i + 1) else .vStr "end")])

/-- The fully converted image of `chainHeap`: `k` nested objects around
the string leaf. -/
def expectedChain : Nat → PVal
  | 0 => .pStr "end"
  | k + 1 => .pObj [("a", expectedChain k)]

/-- Drill `k` levels into a converted chain along field `a`. -/
def drillA : Nat → PVal → Option PVal
  | 0, v => some v
  | k + 1, .pObj [("a", v)] => drillA k v
  | _ + 1, _ => none

/-- A heap holding one native DocumentReference to `users/u1`. -/
def userRefHeap : Heap := [.docRef ["users", "u1"]]

/-- The number of heap addresses not yet visited; the termination measure
of the conversion: every genuine descent marks a fresh address. -/
def unvisitedCount (h : Heap) (visited : List Nat) : Nat :=
  ((Finset.range h.length).filter (fun a => a ∉ visited)).card

/-! ## Map lemmas -/

theorem mapGet_append_self (m : List (String × β)) (k : String) (v : β)
    (h : mapHas m k = false) : mapGet (m ++ [(k, v)]) k = some v := by
  induction m with
  | nil => simp [mapGet]
  | cons hd tl ih =>
    simp only [mapHas, List.any_cons, Bool.or_eq_false_iff] at h
    simp only [mapGet, List.cons_append, List.find?_cons] at *
    rw [h.1]
    exact ih h.2

theorem mapGet_update_self (m : List (String × β)) (k : String) (v : β)
    (h : mapHas m k = true) :
    mapGet (m.map (fun kv => if kv.1 = k then (k, v) else kv)) k = some v := by
  induction m with
  | nil => simp [mapHas] at h
  | cons hd tl ih =>
    simp only [mapHas, List.any_cons, Bool.or_eq_true] at h
    by_cases hk : hd.1 = k
    · simp [mapGet, List.find?_cons, hk]
    · simp only [List.map_cons, if_neg hk]
      simp only [mapGet, List.find?_cons] at *
      rw [decide_eq_false hk]
      rcases h with h | h
      · exact absurd (of_decide_eq_true h) hk
      · exact ih h

theorem mapGet_mapSet_self (m : List (String × β)) (k : String) (v : β) :
    mapGet (mapSet m k v) k = some v := by
  unfold mapSet
  by_cases h : mapHas m k
  · rw [if_pos h]; exact mapGet_update_self m k v h
  · rw [if_neg h]; exact mapGet_append_self m k v (by simpa using h)

theorem mapGet_mapDelete_self (m : List (String × β)) (k : String) :
    mapGet (mapDelete m k) k = none := by
  induction m with
  | nil => simp [mapDelete, mapGet]
  | cons hd tl ih =>
    by_cases hk : hd.1 = k
    · simpa [mapDelete, hk] using ih
    · simp only [mapDelete] at ih ⊢
      rw [List.filter_cons_of_pos (by simp [hk])]
      simp only [mapGet, List.find?_cons] at ih ⊢
      rw [decide_eq_false hk]
      exact ih

theorem length_mapSet_le (m : List (String × β)) (k : String) (v : β) :
    (mapSet m k v).length ≤ m.length + 1 := by
  unfold mapSet
  by_cases h : mapHas m k
  · rw [if_pos h]; simp
  · rw [if_neg h]; simp

theorem length_mapDelete_le (m : List (String × β)) (k : String) :
    (mapDelete m k).length ≤ m.length :=
  List.length_filter_le _ m

/-! ## Cache lemmas -/

theorem set_fields {α : Type} (s : DocumentCache α) (now : Int) (k : String)
    (v : α) :
    ∃ m, (s.set now k v).cache = mapSet m k ⟨v, now⟩
      ∧ (s.set now k v).ttl = s.ttl
      ∧ (s.set now k v).maxSize = s.maxSize
      ∧ (s.set now k v).hitCount = s.hitCount
      ∧ (s.set now k v).missCount = s.missCount := by
  unfold DocumentCache.set
  split
  · split
    · exact ⟨s.cache, rfl, rfl, rfl, rfl, rfl⟩
    · exact ⟨_, rfl, rfl, rfl, rfl, rfl⟩
  · exact ⟨s.cache, rfl, rfl, rfl, rfl, rfl⟩

/-- C3: `set(k,v)` followed immediately by `get(k)` returns `v` (the entry
age is `0 ≤ ttl`); a `get` whose elapsed time strictly exceeds the TTL
returns `null`, deletes the entry, and increments the miss counter. -/
theorem c3_cache_ttl {α : Type} (s : DocumentCache α) (now : Int) (k : String)
    (v : α) (httl : 0 ≤ s.ttl) :
    ((s.set now k v).get now k).1 = some v
    ∧ ∀ later : Int, later - now > s.ttl →
        ((s.set now k v).get later k).1 = none
        ∧ mapGet (((s.set now k v).get later k).2).cache k = none
        ∧ (((s.set now k v).get later k).2).missCount
            = (s.set now k v).missCount + 1 := by
  obtain ⟨m, hm, httl', hmax', hhit', hmiss'⟩ := set_fields s now k v
  have hget : mapGet (s.set now k v).cache k = some ⟨v, now⟩ := by
    rw [hm]; exact mapGet_mapSet_self m k ⟨v, now⟩
  constructor
  · unfold DocumentCache.get
    rw [hget]
    dsimp only
    have : ¬ now - now > (s.set now k v).ttl := by rw [httl']; omega
    rw [if_neg this]
  · intro later hlater
    unfold DocumentCache.get
    rw [hget]
    dsimp only
    have : later - now > (s.set now k v).ttl := by rw [httl']; omega
    rw [if_pos this]
    exact ⟨rfl, mapGet_mapDelete_self _ k, rfl⟩

/-- C3 witness: at ttl 100, a key set at time 0 hits immediately, and an
expired read at time 150 misses. -/
theorem c3_cache_ttl_witness :
    (0 : Int) ≤ (emptyCache Nat 100 500).ttl
    ∧ (((emptyCache Nat 100 500).set 0 "k" 7).get 0 "k").1 = some 7
    ∧ (((emptyCache Nat 100 500).set 0 "k" 7).get 150 "k").1 = none := by
  refine ⟨by decide, (c3_cache_ttl _ 0 "k" 7 (by decide)).1, ?_⟩
  exact ((c3_cache_ttl (emptyCache Nat 100 500) 0 "k" 7 (by decide)).2 150
    (by decide)).1

/-- C4: with `maxSize = 2`, inserting distinct keys a, b, c in order
evicts exactly the oldest-inserted entry, leaving exactly `[b, c]`; and a
fresh `get` hit never reorders the map (no promotion on access, so
eviction order is pure insertion order). -/
theorem c4_fifo_eviction {α : Type} :
    (∀ (t1 t2 t3 : Int) (v1 v2 v3 : α),
      ((((emptyCache α 100 2).set t1 "a" v1).set t2 "b" v2).set t3 "c" v3).cache.map
          Prod.fst = ["b", "c"])
    ∧ ∀ (s : DocumentCache α) (now : Int) (k : String) (e : CacheEntry α),
        mapGet s.cache k = some e → ¬ now - e.timestamp > s.ttl →
        ((s.get now k).2).cache = s.cache := by
  constructor
  · intro t1 t2 t3 v1 v2 v3
    rfl
  · intro s now k e hk hfresh
    unfold DocumentCache.get
    rw [hk]
    dsimp only
    rw [if_neg hfresh]

/-- C4 witness: the eviction scenario at concrete times and values, and a
fresh hit leaving the map unchanged. -/
theorem c4_fifo_eviction_witness :
    ((((emptyCache Nat 100 2).set 0 "a" 1).set 1 "b" 2).set 2 "c" 3).cache.map
        Prod.fst = ["b", "c"]
    ∧ (((emptyCache Nat 100 2).set 0 "a" 1).get 0 "a").2.cache
        = ((emptyCache Nat 100 2).set 0 "a" 1).cache := by
  refine ⟨(c4_fifo_eviction.1 0 1 2 1 2 3), ?_⟩
  exact c4_fifo_eviction.2 ((emptyCache Nat 100 2).set 0 "a" 1) 0 "a"
    ⟨1, 0⟩ (by decide) (by decide)

/-- One mutating step preserves the size bound: after any operation the
map holds at most `maxSize` entries (given `maxSize ≥ 1`), and `maxSize`
itself never changes. -/
theorem applyOp_preserves {α : Type} (s : DocumentCache α) (op : CacheOp α)
    (hmax : 1 ≤ s.maxSize) (hlen : s.cache.length ≤ s.maxSize) :
    (applyOp s op).cache.length ≤ s.maxSize
    ∧ (applyOp s op).maxSize = s.maxSize := by
  cases op with
  | opGet now key =>
    unfold applyOp DocumentCache.get
    dsimp only
    cases hk : mapGet s.cache key with
    | none => exact ⟨hlen, rfl⟩
    | some e =>
      dsimp only
      split
      · exact ⟨le_trans (length_mapDelete_le _ _) hlen, rfl⟩
      · exact ⟨hlen, rfl⟩
  | opSet now key v =>
    unfold applyOp DocumentCache.set
    dsimp only
    split
    · next hge =>
      cases hc : s.cache with
      | nil => rw [hc] at hge; simp at hge; omega
      | cons hd tl =>
        obtain ⟨k0, e0⟩ := hd
        dsimp only
        refine ⟨?_, rfl⟩
        have h1 : (mapDelete ((k0, e0) :: tl) k0).length ≤ tl.length := by
          unfold mapDelete
          rw [List.filter_cons_of_neg (by simp)]
          exact List.length_filter_le _ tl
        have h2 := length_mapSet_le (mapDelete ((k0, e0) :: tl) k0) key
          (⟨v, now⟩ : CacheEntry α)
        have h3 : tl.length + 1 ≤ s.maxSize := by rw [hc] at hlen; simpa using hlen
        omega
    · next hlt =>
      have h2 := length_mapSet_le s.cache key (⟨v, now⟩ : CacheEntry α)
      have h3 : ¬ s.cache.length ≥ s.maxSize := hlt
      exact ⟨by omega, rfl⟩
  | opInvalidate key =>
    exact ⟨le_trans (length_mapDelete_le _ _) hlen, rfl⟩
  | opClear => exact ⟨Nat.zero_le _, rfl⟩

/-- C5: starting from an empty cache with `maxSize ≥ 1`, the invariant
`entries.size ≤ maxSize` holds after every sequence of get / set /
invalidate / clear operations. -/
theorem c5_size_invariant {α : Type} (ttl : Int) (maxSize : Nat)
    (hmax : 1 ≤ maxSize) (ops : List (CacheOp α)) :
    (runOps (emptyCache α ttl maxSize) ops).cache.length ≤ maxSize := by
  suffices h : ∀ (s : DocumentCache α), s.maxSize = maxSize →
      s.cache.length ≤ maxSize → (runOps s ops).cache.length ≤ maxSize by
    exact h _ rfl (by simp [emptyCache])
  induction ops with
  | nil => intro s _ h2; simpa [runOps] using h2
  | cons op rest ih =>
    intro s h1 h2
    have hstep := applyOp_preserves s op (h1 ▸ hmax) (h1 ▸ h2)
    exact ih (applyOp s op) (hstep.2.trans h1) (h1 ▸ hstep.1)

/-- C5 witness: a concrete operation sequence at `maxSize = 1` stays
within the bound. -/
theorem c5_size_invariant_witness :
    1 ≤ 1
    ∧ (runOps (emptyCache Nat 50 1)
        [.opSet 0 "a" 1, .opSet 1 "b" 2, .opGet 2 "b", .opSet 3 "c" 3,
         .opInvalidate "a", .opClear, .opSet 4 "d" 4]).cache.length ≤ 1 :=
  ⟨le_refl 1, c5_size_invariant 50 1 (le_refl 1) _⟩

/-- C7 counterexample: after exactly 3 hits and 1 miss, `getStats()`
returns `hitRatio` as the string `"0.75"` (the source applies
`.toFixed(2)`), which is not the number `0.75`: the claimed strict
equality `getStats().hitRatio === 0.75` fails. -/
theorem c7_hit_ratio_counterexample :
    threeHitsOneMiss.hitCount = 3
    ∧ threeHitsOneMiss.missCount = 1
    ∧ threeHitsOneMiss.getStats.hitRatio = StatVal.str "0.75"
    ∧ threeHitsOneMiss.getStats.hitRatio ≠ StatVal.num (3 / 4) :=
  ⟨rfl, rfl, rfl, by decide⟩

/-- C7 amended: `getStats().hitRatio` is the two-decimal string rendering
of `hitCount / (hitCount + missCount)` (the string `"0.00"` when no
requests have occurred); after exactly 3 hits and 1 miss it is the string
`"0.75"`. -/
theorem c7_hit_ratio_string {α : Type} (s : DocumentCache α) :
    (s.hitCount = 3 → s.missCount = 1 →
      s.getStats.hitRatio = StatVal.str "0.75")
    ∧ (s.hitCount = 0 → s.missCount = 0 →
      s.getStats.hitRatio = StatVal.str "0.00") := by
  constructor
  · intro h3 h1
    show StatVal.str (ratioFixed2 s.hitCount s.missCount) = _
    rw [h3, h1]
    decide
  · intro h0 h0'
    show StatVal.str (ratioFixed2 s.hitCount s.missCount) = _
    rw [h0, h0']
    decide

/-- C7 witness: the amended statement applied to the concrete 3-hit 1-miss
session and to the fresh cache. -/
theorem c7_hit_ratio_string_witness :
    threeHitsOneMiss.getStats.hitRatio = StatVal.str "0.75"
    ∧ (emptyCache Nat 60000 500).getStats.hitRatio = StatVal.str "0.00" :=
  ⟨(c7_hit_ratio_string threeHitsOneMiss).1 rfl rfl,
   (c7_hit_ratio_string (emptyCache Nat 60000 500)).2 rfl rfl⟩

/-- C8: the reverse converter is total (it never raises: every request
yields a value), and on a shape mismatch it returns the original raw value
unchanged except for the documented wrappings: a non-JSON string requested
as `array` is wrapped as a singleton array, and an arbitrary plain object
requested as `timestamp` falls through unchanged. -/
theorem c8_toNative_fallback (P : JsPrims)
    (hparse : P.parseJSON "not json" = none) :
    convertValueToFirestoreType P (.str "not json") "array"
      = .plain (.arr [.str "not json"])
    ∧ ∀ fields, convertValueToFirestoreType P (.obj fields) "timestamp"
      = .plain (.obj fields) := by
  constructor
  · have hred : convertValueToFirestoreType P (.str "not json") "array"
        = match P.parseJSON "not json" with
          | some (.arr l) => .plain (.arr l)
          | some _ => .plain (.arr [.str "not json"])
          | none => .plain (.arr [.str "not json"]) := rfl
    rw [hred, hparse]
  · intro fields
    rfl

/-- C8 witness: a primitive record on which `JSON.parse "not json"`
throws, applied at the claim's concrete inputs. -/
theorem c8_toNative_fallback_witness :
    convertValueToFirestoreType ⟨fun _ => none, fun _ => none, fun _ => ""⟩
        (.str "not json") "array" = .plain (.arr [.str "not json"])
    ∧ convertValueToFirestoreType ⟨fun _ => none, fun _ => none, fun _ => ""⟩
        (.obj [("foo", .num 1)]) "timestamp"
      = .plain (.obj [("foo", .num 1)]) :=
  ⟨(c8_toNative_fallback _ rfl).1, (c8_toNative_fallback _ rfl).2 _⟩

/-! ## Normalizer claims on concrete inputs -/

/-- C1: `convertTimestampsToISO` has no depth cap.  On the claim's own
failing input — a linearly nested depth-25 chain with the default
`maxDepth = 20` — the source converts all 25 levels: the value at depth 21
is a fully converted subtree, not the literal `"[maximum depth reached]"`
(no such marker exists anywhere in the program; the `depth`/`maxDepth`
parameters are threaded but never compared). -/
theorem c1_no_depth_cap :
    convertTimestampsToISO (chainHeap 25) (.vRef 0) = some (expectedChain 25)
    ∧ drillA 21 (expectedChain 25) = some (expectedChain 4)
    ∧ expectedChain 4 ≠ .pStr "[maximum depth reached]" := by
  refine ⟨rfl, rfl, fun hcontra => ?_⟩
  rw [show expectedChain 4 = .pObj [("a", expectedChain 3)] from rfl] at hcontra
  exact PVal.noConfusion hcontra

/-- C6 counterexample: `toPlain` of a native reference to `users/u1` does
not equal the claimed four-field object `{type, path, id, collectionId}` —
the source names the parent-segment field `collection` and adds
`_isDocumentReference: true`. -/
theorem c6_reference_counterexample :
    convertTimestampsToISO userRefHeap (.vRef 0)
      ≠ some (.pObj [("type", .pStr "reference"), ("path", .pStr "users/u1"),
          ("id", .pStr "u1"), ("collectionId", .pStr "users")]) := by
  intro h
  rw [show convertTimestampsToISO userRefHeap (.vRef 0)
      = some (.pObj [("type", .pStr "reference"), ("path", .pStr "users/u1"),
          ("id", .pStr "u1"), ("collection", .pStr "users"),
          ("_isDocumentReference", .pBool true)]) from rfl] at h
  simp at h

/-- C6 amended: `toPlain` of a native reference to `users/u1` yields
`{type:"reference", path:"users/u1", id:"u1", collection:"users",
_isDocumentReference:true}`: `path` is the full slash-delimited
identifier, `id` the final segment, and the immediate parent segment is
stored under the key `collection` (not `collectionId`), together with the
`_isDocumentReference` marker. -/
theorem c6_reference_shape :
    convertTimestampsToISO userRefHeap (.vRef 0)
      = some (.pObj [("type", .pStr "reference"), ("path", .pStr "users/u1"),
          ("id", .pStr "u1"), ("collection", .pStr "users"),
          ("_isDocumentReference", .pBool true)]) := rfl

/-! ## Visited-set monotonicity and fuel sufficiency -/

theorem convSeq_mono (step : JVal → List Nat → Option (PVal × List Nat))
    (hstep : ∀ e vis r vis', step e vis = some (r, vis') → vis ⊆ vis') :
    ∀ elems visited r vis', convSeq step elems visited = some (r, vis') →
      visited ⊆ vis' := by
  intro elems
  induction elems with
  | nil =>
    intro visited r vis' hh
    simp only [convSeq, Option.some.injEq, Prod.mk.injEq] at hh
    exact hh.2 ▸ List.Subset.refl _
  | cons e rest ih =>
    intro visited r vis' hh
    simp only [convSeq] at hh
    cases h1 : step e visited with
    | none => rw [h1] at hh; exact absurd hh (by simp)
    | some pr =>
      obtain ⟨pv, vis1⟩ := pr
      rw [h1] at hh
      dsimp only at hh
      cases h2 : convSeq step rest vis1 with
      | none => rw [h2] at hh; exact absurd hh (by simp)
      | some pr2 =>
        obtain ⟨l, vis2⟩ := pr2
        rw [h2] at hh
        simp only [Option.some.injEq, Prod.mk.injEq] at hh
        exact hh.2 ▸ (hstep e visited pv vis1 h1).trans (ih vis1 l vis2 h2)

theorem convFieldsSeq_mono (step : JVal → List Nat → Option (PVal × List Nat))
    (hstep : ∀ e vis r vis', step e vis = some (r, vis') → vis ⊆ vis') :
    ∀ fields visited r vis', convFieldsSeq step fields visited = some (r, vis') →
      visited ⊆ vis' := by
  intro fields
  induction fields with
  | nil =>
    intro visited r vis' hh
    simp only [convFieldsSeq, Option.some.injEq, Prod.mk.injEq] at hh
    exact hh.2 ▸ List.Subset.refl _
  | cons kv rest ih =>
    obtain ⟨k, v⟩ := kv
    intro visited r vis' hh
    simp only [convFieldsSeq] at hh
    cases h1 : step v visited with
    | none => rw [h1] at hh; exact absurd hh (by simp)
    | some pr =>
      obtain ⟨pv, vis1⟩ := pr
      rw [h1] at hh
      dsimp only at hh
      cases h2 : convFieldsSeq step rest vis1 with
      | none => rw [h2] at hh; exact absurd hh (by simp)
      | some pr2 =>
        obtain ⟨l, vis2⟩ := pr2
        rw [h2] at hh
        simp only [Option.some.injEq, Prod.mk.injEq] at hh
        exact hh.2 ▸ (hstep v visited pv vis1 h1).trans (ih vis1 l vis2 h2)

theorem convGo_mono (h : Heap) :
    ∀ fuel data visited depth maxDepth r vis',
      convGo h fuel data visited depth maxDepth = some (r, vis') →
      visited ⊆ vis' := by
  intro fuel
  induction fuel with
  | zero =>
    intro data visited d m r vis' hh
    exact absurd hh (by simp [convGo])
  | succ fuel ih =>
    have hstep : ∀ d m (e : JVal) vis r vis',
        convGo h fuel e vis d m = some (r, vis') → vis ⊆ vis' :=
      fun d m e vis r vis' hh => ih e vis d m r vis' hh
    intro data visited d m r vis' hh
    cases data with
    | vNull =>
      simp only [convGo, Option.some.injEq, Prod.mk.injEq] at hh
      exact hh.2 ▸ List.Subset.refl _
    | vUndefined =>
      simp only [convGo, Option.some.injEq, Prod.mk.injEq] at hh
      exact hh.2 ▸ List.Subset.refl _
    | vBool b =>
      simp only [convGo, Option.some.injEq, Prod.mk.injEq] at hh
      exact hh.2 ▸ List.Subset.refl _
    | vNum q =>
      simp only [convGo, Option.some.injEq, Prod.mk.injEq] at hh
      exact hh.2 ▸ List.Subset.refl _
    | vStr s =>
      simp only [convGo, Option.some.injEq, Prod.mk.injEq] at hh
      exact hh.2 ▸ List.Subset.refl _
    | vRef a =>
      simp only [convGo] at hh
      split at hh
      · simp only [Option.some.injEq, Prod.mk.injEq] at hh
        exact hh.2 ▸ List.Subset.refl _
      · have hsub : visited ⊆ a :: visited := List.subset_cons_self a visited
        cases hobj : h[a]? with
        | none =>
          rw [hobj] at hh
          simp only [Option.some.injEq, Prod.mk.injEq] at hh
          exact hh.2 ▸ hsub
        | some o =>
          rw [hobj] at hh
          cases o with
          | timestamp iso =>
            simp only [Option.some.injEq, Prod.mk.injEq] at hh
            exact hh.2 ▸ hsub
          | geopoint lat lng =>
            simp only [Option.some.injEq, Prod.mk.injEq] at hh
            exact hh.2 ▸ hsub
          | docRef segs =>
            simp only [Option.some.injEq, Prod.mk.injEq] at hh
            exact hh.2 ▸ hsub
          | arr elems =>
            dsimp only at hh
            cases hseq : convSeq
                (fun e v => convGo h fuel e v (d + 1) m) elems (a :: visited) with
            | none => rw [hseq] at hh; exact absurd hh (by simp)
            | some pr =>
              obtain ⟨l, vis2⟩ := pr
              rw [hseq] at hh
              simp only [Option.some.injEq, Prod.mk.injEq] at hh
              exact hh.2 ▸ hsub.trans
                (convSeq_mono _ (hstep (d + 1) m) elems (a :: visited) l vis2 hseq)
          | obj fields =>
            dsimp only at hh
            split at hh
            · simp only [Option.some.injEq, Prod.mk.injEq] at hh
              exact hh.2 ▸ hsub
            · split at hh
              · simp only [Option.some.injEq, Prod.mk.injEq] at hh
                exact hh.2 ▸ hsub
              · cases hseq : convFieldsSeq
                    (fun e v => convGo h fuel e v (d + 1) m) fields (a :: visited) with
                | none => rw [hseq] at hh; exact absurd hh (by simp)
                | some pr =>
                  obtain ⟨l, vis2⟩ := pr
                  rw [hseq] at hh
                  simp only [Option.some.injEq, Prod.mk.injEq] at hh
                  exact hh.2 ▸ hsub.trans
                    (convFieldsSeq_mono _ (hstep (d + 1) m) fields (a :: visited)
                      l vis2 hseq)

theorem unvisitedCount_mono (h : Heap) {v1 v2 : List Nat} (hsub : v1 ⊆ v2) :
    unvisitedCount h v2 ≤ unvisitedCount h v1 := by
  unfold unvisitedCount
  exact Finset.card_le_card
    (Finset.monotone_filter_right _ (fun a ha hc => ha (hsub hc)))

theorem unvisitedCount_cons_lt (h : Heap) {a : Nat} {visited : List Nat}
    (halt : a < h.length) (hnot : a ∉ visited) :
    unvisitedCount h (a :: visited) < unvisitedCount h visited := by
  unfold unvisitedCount
  have hset : (Finset.range h.length).filter (fun x => x ∉ a :: visited)
      = ((Finset.range h.length).filter (fun x => x ∉ visited)).erase a := by
    ext x
    simp only [Finset.mem_filter, Finset.mem_erase, Finset.mem_range,
      List.mem_cons]
    constructor
    · rintro ⟨hx, hnx⟩
      exact ⟨fun hxa => hnx (Or.inl hxa), hx, fun hxv => hnx (Or.inr hxv)⟩
    · rintro ⟨hxa, hx, hnx⟩
      exact ⟨hx, fun hc => hc.elim hxa hnx⟩
  rw [hset]
  have hmem : a ∈ (Finset.range h.length).filter (fun x => x ∉ visited) := by
    simp [Finset.mem_filter, Finset.mem_range, halt, hnot]
  rw [Finset.card_erase_of_mem hmem]
  have hpos : 0 < ((Finset.range h.length).filter (fun x => x ∉ visited)).card :=
    Finset.card_pos.mpr ⟨a, hmem⟩
  omega

theorem convSeq_isSome (step : JVal → List Nat → Option (PVal × List Nat))
    (h : Heap) (fuel : Nat)
    (hmono : ∀ e vis r vis', step e vis = some (r, vis') → vis ⊆ vis')
    (hsome : ∀ e vis, unvisitedCount h vis < fuel → (step e vis).isSome) :
    ∀ elems vis, unvisitedCount h vis < fuel →
      (convSeq step elems vis).isSome := by
  intro elems
  induction elems with
  | nil => intro vis hv; simp [convSeq]
  | cons e rest ih =>
    intro vis hv
    simp only [convSeq]
    cases h1 : step e vis with
    | none => exact absurd (hsome e vis hv) (by simp [h1])
    | some pr =>
      obtain ⟨pv, vis1⟩ := pr
      dsimp only
      have hle := unvisitedCount_mono h (hmono e vis pv vis1 h1)
      cases h2 : convSeq step rest vis1 with
      | none => exact absurd (ih vis1 (by omega)) (by simp [h2])
      | some pr2 => obtain ⟨l, vis2⟩ := pr2; simp

theorem convFieldsSeq_isSome (step : JVal → List Nat → Option (PVal × List Nat))
    (h : Heap) (fuel : Nat)
    (hmono : ∀ e vis r vis', step e vis = some (r, vis') → vis ⊆ vis')
    (hsome : ∀ e vis, unvisitedCount h vis < fuel → (step e vis).isSome) :
    ∀ fields vis, unvisitedCount h vis < fuel →
      (convFieldsSeq step fields vis).isSome := by
  intro fields
  induction fields with
  | nil => intro vis hv; simp [convFieldsSeq]
  | cons kv rest ih =>
    obtain ⟨k, v⟩ := kv
    intro vis hv
    simp only [convFieldsSeq]
    cases h1 : step v vis with
    | none => exact absurd (hsome v vis hv) (by simp [h1])
    | some pr =>
      obtain ⟨pv, vis1⟩ := pr
      dsimp only
      have hle := unvisitedCount_mono h (hmono v vis pv vis1 h1)
      cases h2 : convFieldsSeq step rest vis1 with
      | none => exact absurd (ih vis1 (by omega)) (by simp [h2])
      | some pr2 => obtain ⟨l, vis2⟩ := pr2; simp

theorem convGo_isSome (h : Heap) :
    ∀ fuel data visited depth maxDepth,
      unvisitedCount h visited < fuel →
      (convGo h fuel data visited depth maxDepth).isSome := by
  intro fuel
  induction fuel with
  | zero => intro data visited d m hf; omega
  | succ fuel ih =>
    intro data visited d m hf
    cases data with
    | vNull => simp [convGo]
    | vUndefined => simp [convGo]
    | vBool b => simp [convGo]
    | vNum q => simp [convGo]
    | vStr s => simp [convGo]
    | vRef a =>
      simp only [convGo]
      split
      · simp
      · next hnotin =>
        cases hobj : h[a]? with
        | none => simp
        | some o =>
          have halt : a < h.length := by
            by_contra hc
            rw [List.getElem?_eq_none (by omega)] at hobj
            exact Option.noConfusion hobj
          have hU : unvisitedCount h (a :: visited) < unvisitedCount h visited :=
            unvisitedCount_cons_lt h halt hnotin
          have hUf : unvisitedCount h (a :: visited) < fuel := by omega
          have hmono : ∀ (e : JVal) vis r vis',
              convGo h fuel e vis (d + 1) m = some (r, vis') → vis ⊆ vis' :=
            fun e vis r vis' hh => convGo_mono h fuel e vis (d + 1) m r vis' hh
          have hsome : ∀ (e : JVal) vis, unvisitedCount h vis < fuel →
              (convGo h fuel e vis (d + 1) m).isSome :=
            fun e vis hv => ih e vis (d + 1) m hv
          cases o with
          | timestamp iso => simp
          | geopoint lat lng => simp
          | docRef segs => simp
          | arr elems =>
            dsimp only
            cases hseq : convSeq (fun e v => convGo h fuel e v (d + 1) m)
                elems (a :: visited) with
            | none =>
              exact absurd (convSeq_isSome _ h fuel hmono hsome elems
                (a :: visited) hUf) (by simp [hseq])
            | some pr => obtain ⟨l, vis2⟩ := pr; simp
          | obj fields =>
            dsimp only
            split
            · simp
            · split
              · simp
              · cases hseq : convFieldsSeq (fun e v => convGo h fuel e v (d + 1) m)
                    fields (a :: visited) with
                | none =>
                  exact absurd (convFieldsSeq_isSome _ h fuel hmono hsome fields
                    (a :: visited) hUf) (by simp [hseq])
                | some pr => obtain ⟨l, vis2⟩ := pr; simp

/-- The default fuel `h.length + 1` always suffices: the normalizer
terminates on every input graph, cyclic or not. -/
theorem convertTimestampsToISO_isSome (h : Heap) (data : JVal) :
    (convertTimestampsToISO h data).isSome := by
  unfold convertTimestampsToISO
  have : unvisitedCount h [] < h.length + 1 := by
    unfold unvisitedCount
    have := Finset.card_filter_le (Finset.range h.length) (fun a => a ∉ ([] : List Nat))
    simp only [Finset.card_range] at this
    omega
  cases hgo : convGo h (h.length + 1) data [] 0 20 with
  | none => exact absurd (convGo_isSome h (h.length + 1) data [] 0 20 this) (by simp [hgo])
  | some pr => simp

theorem convFieldsSeq_marks_member
    (step : JVal → List Nat → Option (PVal × List Nat)) (a : Nat) (k : String)
    (hmono : ∀ e vis r vis', step e vis = some (r, vis') → vis ⊆ vis')
    (hcirc : ∀ vis, a ∈ vis →
      step (.vRef a) vis = some (.pStr circularMarker, vis)) :
    ∀ fields vis0 l vis', a ∈ vis0 →
      convFieldsSeq step fields vis0 = some (l, vis') →
      (k, JVal.vRef a) ∈ fields → (k, PVal.pStr circularMarker) ∈ l := by
  intro fields
  induction fields with
  | nil => intro vis0 l vis' ha hh hmem; simp at hmem
  | cons kv rest ih =>
    obtain ⟨k1, v1⟩ := kv
    intro vis0 l vis' ha hh hmem
    simp only [convFieldsSeq] at hh
    cases h1 : step v1 vis0 with
    | none => rw [h1] at hh; exact absurd hh (by simp)
    | some pr =>
      obtain ⟨pv, vis1⟩ := pr
      rw [h1] at hh
      dsimp only at hh
      cases h2 : convFieldsSeq step rest vis1 with
      | none => rw [h2] at hh; exact absurd hh (by simp)
      | some pr2 =>
        obtain ⟨l2, vis2⟩ := pr2
        rw [h2] at hh
        simp only [Option.some.injEq, Prod.mk.injEq] at hh
        obtain ⟨hl, _⟩ := hh
        subst hl
        rcases List.mem_cons.mp hmem with heq | hrest
        · obtain ⟨hk, hv1⟩ := Prod.mk.injEq .. |>.mp heq.symm
          subst hk
          rw [hv1] at h1
          rw [hcirc vis0 ha] at h1
          simp only [Option.some.injEq, Prod.mk.injEq] at h1
          rw [← h1.1]
          exact List.mem_cons_self _ _
        · exact List.mem_cons_of_mem _
            (ih vis1 l2 vis2 (hmono v1 vis0 pv vis1 h1 ha) h2 hrest)

/-- C2 amended: for every object graph, `toPlain` terminates (the default
fuel always suffices); and whenever the self-referencing record is not
captured by the reference heuristics (no truthy `_isDocumentReference`
field and no slash-containing string `path` field), the slot holding the
self-reference equals the literal `"[Référence circulaire]"` — the
source's French marker, not the claimed `"[circular reference]"`. -/
theorem c2_cycle_safety (h : Heap) (a : Nat) (fields : List (String × JVal))
    (k : String) (hobj : h[a]? = some (.obj fields))
    (hmem : (k, JVal.vRef a) ∈ fields)
    (htag : isDocRefTagged fields = false)
    (hpath : pathHeuristic fields = none) :
    (∀ data, (convertTimestampsToISO h data).isSome)
    ∧ ∃ l, convertTimestampsToISO h (.vRef a) = some (.pObj l)
        ∧ (k, PVal.pStr circularMarker) ∈ l := by
  refine ⟨fun data => convertTimestampsToISO_isSome h data, ?_⟩
  have halt : a < h.length := by
    by_contra hc
    rw [List.getElem?_eq_none (by omega)] at hobj
    exact Option.noConfusion hobj
  obtain ⟨m, hm⟩ : ∃ m, h.length = m + 1 := ⟨h.length - 1, by omega⟩
  have hstep_mono : ∀ (e : JVal) vis r vis',
      convGo h h.length e vis (0 + 1) 20 = some (r, vis') → vis ⊆ vis' :=
    fun e vis r vis' hh => convGo_mono h h.length e vis (0 + 1) 20 r vis' hh
  have hstep_some : ∀ (e : JVal) vis, unvisitedCount h vis < h.length →
      (convGo h h.length e vis (0 + 1) 20).isSome :=
    fun e vis hv => convGo_isSome h h.length e vis (0 + 1) 20 hv
  have hU0 : unvisitedCount h [] = h.length := by
    unfold unvisitedCount
    simp
  have hUa : unvisitedCount h [a] < h.length := by
    have := unvisitedCount_cons_lt h halt (by simp : a ∉ ([] : List Nat))
    omega
  have hfields := convFieldsSeq_isSome
    (fun e v => convGo h h.length e v (0 + 1) 20) h h.length hstep_mono
    hstep_some fields [a] hUa
  cases hseq : convFieldsSeq (fun e v => convGo h h.length e v (0 + 1) 20)
      fields [a] with
  | none => rw [hseq] at hfields; exact absurd hfields (by simp)
  | some pr =>
    obtain ⟨l, vis'⟩ := pr
    refine ⟨l, ?_, ?_⟩
    · unfold convertTimestampsToISO
      have hgo : convGo h (h.length + 1) (.vRef a) [] 0 20
          = some (.pObj l, vis') := by
        simp only [convGo]
        rw [if_neg (by simp)]
        rw [hobj]
        dsimp only
        rw [htag]
        simp only [Bool.false_eq_true, if_false]
        rw [hpath]
        dsimp only
        rw [hseq]
      rw [hgo]
      rfl
    · have hcirc : ∀ vis, a ∈ vis →
          convGo h h.length (.vRef a) vis (0 + 1) 20
            = some (.pStr circularMarker, vis) := by
        intro vis hvis
        rw [hm]
        simp only [convGo]
        rw [if_pos hvis]
      exact convFieldsSeq_marks_member _ a k hstep_mono hcirc fields [a] l vis'
        (by simp) hseq hmem

/-- C2 witness: the one-object self-loop `{self: <itself>}`; the theorem's
hypotheses hold and the normalizer terminates on it. -/
theorem c2_cycle_safety_witness :
    (convertTimestampsToISO [HObj.obj [("self", JVal.vRef 0)]]
      (JVal.vRef 0)).isSome :=
  (c2_cycle_safety [HObj.obj [("self", JVal.vRef 0)]] 0
    [("self", JVal.vRef 0)] "self" rfl (by simp) rfl rfl).1 (JVal.vRef 0)

/-- C2 counterexample: on the self-loop `{self: <itself>}` the
self-referencing slot is the French literal `"[Référence circulaire]"`,
not the claimed `"[circular reference]"`. -/
theorem c2_circular_marker_counterexample :
    convertTimestampsToISO [HObj.obj [("self", JVal.vRef 0)]] (JVal.vRef 0)
      = some (.pObj [("self", .pStr "[Référence circulaire]")])
    ∧ convertTimestampsToISO [HObj.obj [("self", JVal.vRef 0)]] (JVal.vRef 0)
      ≠ some (.pObj [("self", .pStr "[circular reference]")]) := by
  refine ⟨rfl, fun hc => ?_⟩
  rw [show convertTimestampsToISO [HObj.obj [("self", JVal.vRef 0)]]
      (JVal.vRef 0)
      = some (.pObj [("self", .pStr "[Référence circulaire]")]) from rfl] at hc
  simp at hc

/-- C9 counterexample: with the same native timestamp object (one
identity) at two leaf positions of an acyclic tree, the second occurrence
converts to the circular marker, not the ISO string: the visited check
precedes the `instanceof Timestamp` dispatch and applies to every object,
not only composites. -/
theorem c9_shared_timestamp_counterexample :
    convertTimestampsToISO
        [HObj.timestamp "2020-01-01T00:00:00.000Z",
         HObj.obj [("a", JVal.vRef 0), ("b", JVal.vRef 0)]] (JVal.vRef 1)
      = some (.pObj [("a", .pStr "2020-01-01T00:00:00.000Z"),
          ("b", .pStr "[Référence circulaire]")])
    ∧ convertTimestampsToISO
        [HObj.timestamp "2020-01-01T00:00:00.000Z",
         HObj.obj [("a", JVal.vRef 0), ("b", JVal.vRef 0)]] (JVal.vRef 1)
      ≠ some (.pObj [("a", .pStr "2020-01-01T00:00:00.000Z"),
          ("b", .pStr "2020-01-01T00:00:00.000Z")]) := by
  refine ⟨rfl, fun hc => ?_⟩
  rw [show convertTimestampsToISO
      [HObj.timestamp "2020-01-01T00:00:00.000Z",
       HObj.obj [("a", JVal.vRef 0), ("b", JVal.vRef 0)]] (JVal.vRef 1)
      = some (.pObj [("a", .pStr "2020-01-01T00:00:00.000Z"),
          ("b", .pStr "[Référence circulaire]")]) from rfl] at hc
  simp at hc

/-- C9 amended: in a tree holding the same timestamp identity at two leaf
positions, the first-visited occurrence maps to the ISO string and the
second to `"[Référence circulaire]"` (for any field names that do not
trigger the `_isDocumentReference` early return). -/
theorem c9_shared_timestamp (iso k1 k2 : String)
    (hk1 : k1 ≠ "_isDocumentReference") (hk2 : k2 ≠ "_isDocumentReference") :
    convertTimestampsToISO
        [HObj.timestamp iso, HObj.obj [(k1, JVal.vRef 0), (k2, JVal.vRef 0)]]
        (JVal.vRef 1)
      = some (.pObj [(k1, .pStr iso), (k2, .pStr circularMarker)]) := by
  by_cases hp1 : k1 = "path" <;> by_cases hp2 : k2 = "path" <;>
    simp [convertTimestampsToISO, convGo, convSeq, convFieldsSeq,
      isDocRefTagged, fieldLookup, pathHeuristic, List.find?, hk1, hk2,
      hp1, hp2]

/-- C9 witness: the amended statement at concrete keys and timestamp. -/
theorem c9_shared_timestamp_witness :
    convertTimestampsToISO
        [HObj.timestamp "2021-05-05T00:00:00.000Z",
         HObj.obj [("x", JVal.vRef 0), ("y", JVal.vRef 0)]] (JVal.vRef 1)
      = some (.pObj [("x", .pStr "2021-05-05T00:00:00.000Z"),
          ("y", .pStr circularMarker)]) :=
  c9_shared_timestamp "2021-05-05T00:00:00.000Z" "x" "y" (by decide) (by decide)

/-- C10: a non-array plain record whose `path` field is a string
containing `/` (and which is not already tagged via
`_isDocumentReference`) is replaced wholesale by the reference tag object
built from its path — every other field of the record is discarded. -/
theorem c10_path_heuristic (h : Heap) (a : Nat)
    (fields : List (String × JVal)) (p : String)
    (hobj : h[a]? = some (.obj fields))
    (hpath : fieldLookup fields "path" = some (.vStr p))
    (hne : p ≠ "") (hslash : jsIncludes p '/' = true)
    (hparts : (jsSplit p '/').length ≥ 2)
    (htag : isDocRefTagged fields = false) :
    convertTimestampsToISO h (.vRef a)
      = some (.pObj [("type", .pStr "reference"), ("path", .pStr p),
          ("id", .pStr ((jsSplit p '/').getLastD "")),
          ("collection",
            .pStr ((jsSplit p '/').getD ((jsSplit p '/').length - 2) "")),
          ("_isDocumentReference", .pBool true)]) := by
  have hph : pathHeuristic fields = some p := by
    unfold pathHeuristic
    rw [hpath]
    dsimp only
    rw [if_pos ⟨hne, hslash, hparts⟩]
  unfold convertTimestampsToISO
  have hgo : convGo h (h.length + 1) (.vRef a) [] 0 20
      = some (referenceTag p ((jsSplit p '/').getLastD "")
          ((jsSplit p '/').getD ((jsSplit p '/').length - 2) ""),
        [a]) := by
    simp only [convGo]
    rw [if_neg (by simp)]
    rw [hobj]
    dsimp only
    rw [htag]
    simp only [Bool.false_eq_true, if_false]
    rw [hph]
  rw [hgo]
  rfl

/-- C10 witness: the record `{path: "users/u1", name: "x"}` collapses to
the five-field reference tag; the `name` field is gone. -/
theorem c10_path_heuristic_witness :
    convertTimestampsToISO
        [HObj.obj [("path", JVal.vStr "users/u1"), ("name", JVal.vStr "x")]]
        (JVal.vRef 0)
      = some (.pObj [("type", .pStr "reference"), ("path", .pStr "users/u1"),
          ("id", .pStr "u1"), ("collection", .pStr "users"),
          ("_isDocumentReference", .pBool true)]) :=
  c10_path_heuristic
    [HObj.obj [("path", JVal.vStr "users/u1"), ("name", JVal.vStr "x")]] 0
    [("path", JVal.vStr "users/u1"), ("name", JVal.vStr "x")] "users/u1"
    rfl rfl (by decide) (by decide) (by decide) rfl
